import Mathlib

/-!
Verification of the ralphy execution kernel against its specification.

Each component under scrutiny (CSV task source, in-memory task queue, task
state manager, persisted-JSON pollution guard, command runner and validator,
connection circuit breaker, per-task hash store, file lock manager) is given
a shallow embedding: a Lean transcription of the TypeScript functions, with
the filesystem, the clock and hashing made explicit parameters.  Theorems
about those embeddings settle the spec claims.
-/

set_option autoImplicit false

namespace Ralphy

/-! ## Generic helpers: association lists with JS `Map` semantics, substrings -/

/-- First value stored under key `k` (JS `Map.get`). -/
def alGet {V : Type} (k : String) : List (String × V) → Option V
  | [] => none
  | (k', v) :: t => if k' = k then some v else alGet k t

/-- JS `Map.has`. -/
def alHas {V : Type} (k : String) (l : List (String × V)) : Bool :=
  (alGet k l).isSome

/-- JS `Map.set`: replace the entry in place if the key is present (keeping
its position in iteration order), otherwise append at the end. -/
def alSet {V : Type} (k : String) (v : V) : List (String × V) → List (String × V)
  | [] => [(k, v)]
  | (k', v') :: t => if k' = k then (k, v) :: t else (k', v') :: alSet k v t

/-- JS `Map.delete`: remove every entry stored under key `k`. -/
def alDel {V : Type} (k : String) (l : List (String × V)) : List (String × V) :=
  l.filter (fun p => p.1 ≠ k)

/-- Does `hay` start with `needle`? -/
def subHere : List Char → List Char → Bool
  | [], _ => true
  | _ :: _, [] => false
  | n :: ns, h :: hs => n = h && subHere ns hs

/-- Does `hay` contain `needle` as a contiguous run (substring test)? -/
def hasSubL (needle : List Char) : List Char → Bool
  | [] => subHere needle []
  | h :: hs => subHere needle (h :: hs) || hasSubL needle hs

/-- `hasSub hay needle`: substring containment on strings. -/
def hasSub (hay needle : String) : Bool :=
  hasSubL needle.data hay.data

/-- JS `String.prototype.trim`, restricted to ASCII whitespace. -/
def jsWhitespace (c : Char) : Bool :=
  c = ' ' || c = '\t' || c = '\n' || c = '\r'

def jsTrim (s : String) : String :=
  String.mk (((s.data.dropWhile jsWhitespace).reverse.dropWhile jsWhitespace).reverse)

/-- ASCII lowercase (`String.prototype.toLowerCase` on the ASCII data these
functions compare against). -/
def lowerChar (c : Char) : Char :=
  if 'A' ≤ c && c ≤ 'Z' then Char.ofNat (c.toNat + 32) else c

def jsToLower (s : String) : String :=
  String.mk (s.data.map lowerChar)

/-- Leading decimal digits of a character list, `none` when the first
character is not a digit (the `NaN` case of `Number.parseInt`). -/
def leadDigitsAux : List Char → Nat → Nat
  | [], acc => acc
  | c :: rest, acc =>
    if c.isDigit then leadDigitsAux rest (acc * 10 + (c.toNat - 48)) else acc

def leadDigits : List Char → Option Nat
  | [] => none
  | c :: rest => if c.isDigit then some (leadDigitsAux rest (c.toNat - 48)) else none

/-- `Number.parseInt(s, 10) || 0`: parse an optionally signed decimal
prefix; both a `NaN` result and a `0` result collapse to `0`. -/
def jsParseIntOr0 (s : String) : Int :=
  match (jsTrim s).data with
  | '-' :: rest =>
    match leadDigits rest with
    | none => 0
    | some n => -(n : Int)
  | '+' :: rest =>
    match leadDigits rest with
    | none => 0
    | some n => (n : Int)
  | l =>
    match leadDigits l with
    | none => 0
    | some n => (n : Int)

end Ralphy

namespace Ralphy.Csv

/-! ## `src/cli/src/tasks/csv.ts` -/

/-- Split on the regular expression `\r?\n` as in `content.trim().split(/\r?\n/)`.
The accumulator holds the current line reversed; a `\r` immediately before
`\n` belongs to the separator. -/
def finishLine (cur : List Char) : List Char :=
  (match cur with
   | '\r' :: t => t
   | _ => cur).reverse

def splitLinesAux : List Char → List Char → List (List Char)
  | [], cur => [finishLine cur]
  | '\n' :: rest, cur => finishLine cur :: splitLinesAux rest []
  | c :: rest, cur => splitLinesAux rest (c :: cur)

/-- One line of `parseCSV`: the character loop with `values`, `current` and
`inQuotes`, including the doubled-quote escape. -/
def parseLineAux : List Char → List String → String → Bool → List String
  | [], values, current, _ => values ++ [current]
  | '"' :: '"' :: rest2, values, current, true => parseLineAux rest2 values (current.push '"') true
  | '"' :: rest, values, current, true => parseLineAux rest values current false
  | '"' :: rest, values, current, false => parseLineAux rest values current true
  | ',' :: rest, values, current, inQuotes =>
    if inQuotes then parseLineAux rest values (current.push ',') inQuotes
    else parseLineAux rest (values ++ [current]) "" inQuotes
  | c :: rest, values, current, inQuotes => parseLineAux rest values (current.push c) inQuotes

/-- `parseCSV` from `csv.ts`. -/
def parseCSV (content : String) : List (List String) :=
  (splitLinesAux (jsTrim content).data []).map (fun l => parseLineAux l [] "" false)

/-- `escapeCSV`: quote a value iff it contains a comma, a quote or a
newline, doubling interior quotes. -/
def escapeCSV (value : String) : String :=
  if value.data.contains ',' || value.data.contains '"' || value.data.contains '\n' then
    "\"" ++ String.mk ((value.data.map (fun c => if c = '"' then ['"', '"'] else [c])).flatten) ++ "\""
  else value

/-- `toCSV`: rows joined by `\n`, no trailing newline. -/
def toCSV (rows : List (List String)) : String :=
  String.intercalate "\n" (rows.map (fun row => String.intercalate "," (row.map escapeCSV)))

structure CsvTask where
  id : String
  title : String
  completed : Bool
  parallelGroup : Int
  description : String
  deriving DecidableEq, Repr

/-- `CsvTaskSource.readFile`: skip the header row, keep rows with at least
two fields, apply the JS defaulting rules (`row[0] || String(i)` etc.). -/
def readFileTasks (content : String) : List CsvTask :=
  let rows := parseCSV content
  ((List.range rows.length).drop 1).filterMap (fun i =>
    let row := rows.getD i []
    if row.length ≥ 2 then
      some
        { id := if row.getD 0 "" = "" then toString i else row.getD 0 ""
          title := row.getD 1 ""
          completed := row.getD 2 "" = "1" || jsToLower (row.getD 2 "") = "true"
          parallelGroup := jsParseIntOr0 (if row.getD 3 "" = "" then "0" else row.getD 3 "")
          description := row.getD 4 "" }
    else none)

/-- `CsvTaskSource.writeFile`: header plus one row per task, through `toCSV`. -/
def writeFileTasks (tasks : List CsvTask) : String :=
  toCSV (["id", "title", "done", "group", "desc"] ::
    tasks.map (fun t =>
      [t.id, t.title, if t.completed then "1" else "0", toString t.parallelGroup, t.description]))

/-- The scenario S1 input. -/
def s1Input : String :=
  "id,title,done,group,desc\n1,Add login,0,1,\"Use OAuth\"\n2,\"Fix, bug\",1,0,"

/-- What the writer actually produces for the parsed S1 tasks: the
unnecessary quotes around `Use OAuth` are dropped. -/
def s1Output : String :=
  "id,title,done,group,desc\n1,Add login,0,1,Use OAuth\n2,\"Fix, bug\",1,0,"

end Ralphy.Csv

namespace Ralphy.Queue

/-! ## `MemoryTaskQueue` (in-memory queue backend) -/

/-- The queue only ever reads `task.id`; the remaining `Task` fields are
carried as opaque payload. -/
structure Task where
  id : String
  title : String
  deriving DecidableEq, Repr

inductive TaskPriority where
  | critical
  | high
  | normal
  | low
  deriving DecidableEq, Repr

/-- `priorityOrder`: critical=0, high=1, normal=2, low=3 (lower is earlier). -/
def priorityOrder : TaskPriority → Nat
  | .critical => 0
  | .high => 1
  | .normal => 2
  | .low => 3

structure QueueItem where
  task : Task
  priority : TaskPriority
  enqueuedAt : Int
  startedAt : Option Int
  completedAt : Option Int
  attempts : Nat
  maxAttempts : Nat
  deriving DecidableEq, Repr

/-- The five state partitions, each a JS `Map` keyed by task id. -/
structure MemQueue where
  pending : List (String × QueueItem)
  running : List (String × QueueItem)
  completed : List (String × QueueItem)
  failed : List (String × QueueItem)
  skipped : List (String × QueueItem)
  deriving DecidableEq, Repr

def emptyQueue : MemQueue :=
  { pending := [], running := [], completed := [], failed := [], skipped := [] }

/-- `enqueue`: throws when the id is in `pending` or `running` (and only
then); otherwise inserts a fresh item with `attempts = 0` into `pending`. -/
def enqueue (task : Task) (priority : TaskPriority) (maxAttempts : Nat) (now : Int)
    (q : MemQueue) : Except String MemQueue :=
  if alHas task.id q.pending || alHas task.id q.running then
    .error ("Task " ++ task.id ++ " already exists in queue")
  else
    let item : QueueItem :=
      { task := task, priority := priority, enqueuedAt := now,
        startedAt := none, completedAt := none, attempts := 0,
        maxAttempts := maxAttempts }
    .ok { q with pending := alSet task.id item q.pending }

/-- The selection loop of `dequeue`/`peek`: strictly higher priority wins;
on equal priority a strictly earlier `enqueuedAt` wins; otherwise the item
seen first is kept. -/
def betterOf (best : Option QueueItem) (item : QueueItem) : Option QueueItem :=
  match best with
  | none => some item
  | some b =>
    if priorityOrder item.priority < priorityOrder b.priority then some item
    else if priorityOrder item.priority = priorityOrder b.priority ∧ item.enqueuedAt < b.enqueuedAt
      then some item
    else some b

def selectBest (l : List (String × QueueItem)) : Option QueueItem :=
  l.foldl (fun best p => betterOf best p.2) none

/-- `dequeue`: move the selected item from `pending` to `running`, set
`startedAt` and increment `attempts`. -/
def dequeue (now : Int) (q : MemQueue) : Option QueueItem × MemQueue :=
  match selectBest q.pending with
  | none => (none, q)
  | some it =>
    let it' := { it with startedAt := some now, attempts := it.attempts + 1 }
    (some it',
      { q with pending := alDel it.task.id q.pending,
               running := alSet it.task.id it' q.running })

/-- `markComplete`: only acts on an item currently in `running`. -/
def markComplete (taskId : String) (now : Int) (q : MemQueue) : MemQueue :=
  match alGet taskId q.running with
  | none => q
  | some it =>
    { q with running := alDel taskId q.running,
             completed := alSet taskId { it with completedAt := some now } q.completed }

/-- `markFailed`: increments `attempts`; below `maxAttempts` the item goes
back to `pending`, otherwise to `failed`. -/
def markFailed (taskId : String) (now : Int) (q : MemQueue) : MemQueue :=
  match alGet taskId q.running with
  | none => q
  | some it =>
    if it.attempts + 1 < it.maxAttempts then
      { q with running := alDel taskId q.running,
               pending := alSet taskId
                 { it with attempts := it.attempts + 1, startedAt := none } q.pending }
    else
      { q with running := alDel taskId q.running,
               failed := alSet taskId
                 { it with attempts := it.attempts + 1, completedAt := some now } q.failed }

/-- `markSkipped`: accepts an item from `pending` or `running`, deleting
the id from both. -/
def markSkipped (taskId : String) (now : Int) (q : MemQueue) : MemQueue :=
  match (alGet taskId q.pending).orElse (fun _ => alGet taskId q.running) with
  | none => q
  | some it =>
    { q with pending := alDel taskId q.pending,
             running := alDel taskId q.running,
             skipped := alSet taskId { it with completedAt := some now } q.skipped }

/-- `resetTask`: moves a failed or skipped item back to `pending` with
`attempts = 0`. -/
def resetTask (taskId : String) (q : MemQueue) : MemQueue :=
  match (alGet taskId q.failed).orElse (fun _ => alGet taskId q.skipped) with
  | none => q
  | some it =>
    { q with failed := alDel taskId q.failed,
             skipped := alDel taskId q.skipped,
             pending := alSet taskId
               { it with attempts := 0, startedAt := none, completedAt := none } q.pending }

/-- `remove`: delete the id from all five partitions. -/
def removeTask (taskId : String) (q : MemQueue) : MemQueue :=
  { pending := alDel taskId q.pending,
    running := alDel taskId q.running,
    completed := alDel taskId q.completed,
    failed := alDel taskId q.failed,
    skipped := alDel taskId q.skipped }

/-- One queue operation, for reasoning about arbitrary call sequences. -/
inductive QOp where
  | enqueue (task : Task) (priority : TaskPriority) (maxAttempts : Nat) (now : Int)
  | dequeue (now : Int)
  | markComplete (taskId : String) (now : Int)
  | markFailed (taskId : String) (now : Int)
  | markSkipped (taskId : String) (now : Int)
  | resetTask (taskId : String)
  | removeTask (taskId : String)

/-- Apply one operation; a throwing `enqueue` leaves the queue unchanged. -/
def stepOp (q : MemQueue) : QOp → MemQueue
  | .enqueue t p m now =>
    match enqueue t p m now q with
    | .ok q' => q'
    | .error _ => q
  | .dequeue now => (dequeue now q).2
  | .markComplete id now => markComplete id now q
  | .markFailed id now => markFailed id now q
  | .markSkipped id now => markSkipped id now q
  | .resetTask id => resetTask id q
  | .removeTask id => removeTask id q

def runOps (q : MemQueue) (ops : List QOp) : MemQueue :=
  ops.foldl stepOp q

/-- Number of partitions currently containing `id`. -/
def partCount (q : MemQueue) (id : String) : Nat :=
  (alHas id q.pending).toNat + (alHas id q.running).toNat + (alHas id q.completed).toNat +
    (alHas id q.failed).toNat + (alHas id q.skipped).toNat

/-- Every partition entry is stored under its own task id — true of every
queue reachable from `emptyQueue`. -/
def WellKeyed (q : MemQueue) : Prop :=
  (∀ p ∈ q.pending, p.2.task.id = p.1) ∧ (∀ p ∈ q.running, p.2.task.id = p.1) ∧
    (∀ p ∈ q.completed, p.2.task.id = p.1) ∧ (∀ p ∈ q.failed, p.2.task.id = p.1) ∧
    (∀ p ∈ q.skipped, p.2.task.id = p.1)

/-- The always-failing single-task experiment for the retry budget: a fresh
queue holding one task `T` with the given `maxAttempts`. -/
def singleQueue (m : Nat) : MemQueue :=
  stepOp emptyQueue (.enqueue ⟨"T", "t"⟩ .normal m 0)

/-- One execution cycle for the experiment: `dequeue` then `markFailed`. -/
def failCycle (q : MemQueue) : MemQueue :=
  markFailed "T" 0 (dequeue 0 q).2

/-- State after `k` dequeue–markFailed cycles. -/
def cycles (m k : Nat) : MemQueue :=
  failCycle^[k] (singleQueue m)

/-- The experiment's item as it sits in `running` right after a dequeue. -/
def runItem (m a : Nat) : QueueItem :=
  { task := ⟨"T", "t"⟩, priority := .normal, enqueuedAt := 0, startedAt := some 0,
    completedAt := none, attempts := a, maxAttempts := m }

/-- Closed form for the pending state reached after `k` incomplete cycles. -/
def pendStateAt (m : Nat) (a : Nat) : MemQueue :=
  { emptyQueue with pending := [("T",
      { task := ⟨"T", "t"⟩, priority := .normal, enqueuedAt := 0, startedAt := none,
        completedAt := none, attempts := a, maxAttempts := m })] }

/-- Closed form for the terminal state of the experiment. -/
def failedStateAt (m : Nat) (a : Nat) : MemQueue :=
  { emptyQueue with failed := [("T",
      { task := ⟨"T", "t"⟩, priority := .normal, enqueuedAt := 0, startedAt := some 0,
        completedAt := some 0, attempts := a, maxAttempts := m })] }

end Ralphy.Queue

namespace Ralphy.State

/-! ## `TaskStateManager` (`src/cli/src/execution/task-state.ts`) -/

inductive TaskState where
  | pending
  | running
  | completed
  | failed
  | deferred
  | skipped
  deriving DecidableEq, Repr

structure TaskStateEntry where
  id : String
  title : String
  state : TaskState
  attemptCount : Nat
  lastAttemptTime : Option Int
  errorHistory : List String
  deriving DecidableEq, Repr

structure Task where
  id : String
  title : String
  deriving DecidableEq, Repr

/-- `buildTaskKey`. -/
def buildTaskKey (sourceType sourcePath taskId : String) : String :=
  sourceType ++ ":" ++ sourcePath ++ ":" ++ taskId

/-- The reset applied per entry by the crash-recovery pass of
`initialize`: a `running` entry becomes `pending` with `attemptCount = 0`;
any other entry is untouched. -/
def resetEntry (e : TaskStateEntry) : TaskStateEntry :=
  if e.state = .running then { e with state := .pending, attemptCount := 0 } else e

/-- The crash-recovery pass of `initialize` over the whole stored map. -/
def resetRunning (l : List (String × TaskStateEntry)) : List (String × TaskStateEntry) :=
  l.map (fun p => (p.1, resetEntry p.2))

/-- The merge pass of `initialize`: a source task whose key is absent is
added as a fresh `pending` entry; a present key only has its title updated. -/
def mergeSource (sourceType sourcePath : String) (l : List (String × TaskStateEntry))
    (source : List Task) : List (String × TaskStateEntry) :=
  source.foldl (fun acc t =>
    let key := buildTaskKey sourceType sourcePath t.id
    match alGet key acc with
    | none => acc ++ [(key,
        { id := t.id, title := t.title, state := .pending, attemptCount := 0,
          lastAttemptTime := none, errorHistory := [] })]
    | some e => alSet key { e with title := t.title } acc) l

/-- The final pass of `initialize`: drop stored entries whose key no longer
occurs in the source. -/
def dropStale (sourceType sourcePath : String) (l : List (String × TaskStateEntry))
    (source : List Task) : List (String × TaskStateEntry) :=
  l.filter (fun p => (source.map (fun t => buildTaskKey sourceType sourcePath t.id)).contains p.1)

/-- `TaskStateManager.initialize` on an already-loaded stored map. -/
def tsInitialize (sourceType sourcePath : String) (persisted : List (String × TaskStateEntry))
    (source : List Task) : List (String × TaskStateEntry) :=
  dropStale sourceType sourcePath
    (mergeSource sourceType sourcePath (resetRunning persisted) source) source

end Ralphy.State

namespace Ralphy.Pollution

/-! ## Persisted-JSON prototype-pollution guard

Both `FileHashStore.initialize` and `TaskStateManager.loadState` (JSON
branch) run the same test before accepting persisted content:

  `data.match(/"__(proto|constructor|prototype)"__/)`

i.e. they reject exactly the strings containing one of the three literal
substrings below. -/

/-- The literal substrings matched by the regular expression
`/"__(proto|constructor|prototype)"__/`. -/
def pollutionRegexMatches (s : String) : Bool :=
  hasSub s "\"__proto\"__" || hasSub s "\"__constructor\"__" || hasSub s "\"__prototype\"__"

/-- The guard in `FileHashStore.initialize`: the index file content is
discarded (throw caught, fresh index) iff the regular expression matches;
otherwise the content is passed to `JSON.parse` and used. -/
def loadHashIndexGuard (data : String) : Except String Unit :=
  if pollutionRegexMatches data then
    .error "Hash index file contains potentially malicious prototype pollution keys"
  else .ok ()

/-- The guard in `TaskStateManager.loadState`, JSON branch: the same
regular expression, additionally applied only after `JSON.parse` has
already run on the content. -/
def loadStateJsonGuard (data : String) : Except String Unit :=
  if pollutionRegexMatches data then
    .error "State file contains potentially malicious prototype pollution keys"
  else .ok ()

/-- A hash-store index whose `files` map holds the key `__proto__`. -/
def payloadProto : String :=
  "\x7b\"taskId\":\"t\",\"files\":\x7b\"__proto__\":\x7b\"polluted\":1\x7d\x7d\x7d"

/-- A state file whose `tasks` map holds the key `constructor`. -/
def payloadCtor : String :=
  "\x7b\"version\":1,\"tasks\":\x7b\"constructor\":\x7b\"id\":\"1\"\x7d\x7d\x7d"

/-- A payload holding the literal key `prototype`. -/
def payloadProtoType : String :=
  "\x7b\"prototype\":\x7b\"x\":2\x7d\x7d"

end Ralphy.Pollution

namespace Ralphy.Exec

/-! ## Command validation and the command runner
(`validation.ts` and the `execCommand`/`execCommandStreaming` module) -/

/-- The allowed command-character class: alphanumerics, dot, underscore and
hyphen, plus forward slash on POSIX or backslash on Windows. -/
def validCommandChar (isWindows : Bool) (c : Char) : Bool :=
  (('a' ≤ c && c ≤ 'z') || ('A' ≤ c && c ≤ 'Z') || ('0' ≤ c && c ≤ '9') ||
    c = '.' || c = '_' || c = '-' || (if isWindows then c = '\\' else c = '/'))

/-- The `dangerousPatterns` list of `validateCommand`: shell metacharacters,
variable expansion, command substitution, backticks, `||`, `&&`,
redirection. -/
def commandDangerous (command : String) : Bool :=
  command.data.any (fun c => c = ';' || c = '&' || c = '|' || c = '`' || c = '$') ||
    hasSubL ['$', '\x7b'] command.data || hasSubL ['$', '('] command.data ||
    hasSubL ['`'] command.data || hasSubL ['|', '|'] command.data ||
    hasSubL ['&', '&'] command.data ||
    command.data.any (fun c => c = '<' || c = '>')

/-- `validateCommand`: `null` on a dangerous pattern or on a character
outside the allowed class. -/
def validateCommand (isWindows : Bool) (command : String) : Option String :=
  if commandDangerous command then none
  else if command.data ≠ [] && command.data.all (validCommandChar isWindows) then some command
  else none

/-- The `dangerousPatterns` list of `validateArgs` (note: no `<`/`>`
checks and no bare-`$` check, unlike `validateCommand`). -/
def argDangerous (arg : String) : Bool :=
  arg.data.any (fun c => c = ';' || c = '&' || c = '|' || c = '`') ||
    hasSubL ['$', '\x7b'] arg.data || hasSubL ['$', '('] arg.data ||
    hasSubL ['`'] arg.data || hasSubL ['|', '|'] arg.data ||
    hasSubL ['&', '&'] arg.data

/-- `validateArgs`: `null` when any argument is dangerous. -/
def validateArgs (args : List String) : Option (List String) :=
  if args.any argDangerous then none else some args

structure ValidationResult where
  valid : Bool
  command : Option String
  args : Option (List String)
  error : Option String
  deriving DecidableEq, Repr

/-- `validateCommandAndArgs`. -/
def validateCommandAndArgs (isWindows : Bool) (command : String) (args : List String) :
    ValidationResult :=
  match validateCommand isWindows command with
  | none =>
    { valid := false, command := none, args := none,
      error := some "Invalid command - potential command injection detected" }
  | some c =>
    match validateArgs args with
    | none =>
      { valid := false, command := none, args := none,
        error := some "Invalid arguments - potential command injection detected" }
    | some as => { valid := true, command := some c, args := some as, error := none }

/-- What a call to the command runner does: either spawn a process with the
given argv (never through a shell option — both `Bun.spawn` and
`spawn(..., { shell: false })` take an argv array), or return an error
without spawning. -/
inductive ExecAction where
  | spawned (argv : List String)
  | rejected (stderr : String) (exitCode : Int)
  deriving DecidableEq, Repr

/-- `execCommand`: on Bun the process is spawned with no validation at all
(through `cmd.exe /c` on Windows); on Node.js the command and arguments are
validated first and a failed check returns exit code 1 without spawning. -/
def execCommandModel (isBun isWindows : Bool) (command : String) (args : List String) :
    ExecAction :=
  if isBun then
    .spawned (if isWindows then "cmd.exe" :: "/c" :: command :: args else command :: args)
  else
    let v := validateCommandAndArgs isWindows command args
    if v.valid then .spawned (v.command.getD command :: v.args.getD args)
    else .rejected ("Error: " ++ v.error.getD "") 1

/-- `execCommandStreaming`: identical spawn/validation structure; a failed
check emits the error line and returns exit code 1 without spawning. -/
def execStreamingModel (isBun isWindows : Bool) (command : String) (args : List String) :
    ExecAction :=
  if isBun then
    .spawned (if isWindows then "cmd.exe" :: "/c" :: command :: args else command :: args)
  else
    let v := validateCommandAndArgs isWindows command args
    if v.valid then .spawned (v.command.getD command :: v.args.getD args)
    else .rejected ("Error: " ++ v.error.getD "") 1

end Ralphy.Exec

namespace Ralphy.Circuit

/-! ## `ConnectionStateManager` (circuit breaker) -/

inductive CircuitState where
  | CLOSED
  | OPEN
  | HALF_OPEN
  deriving DecidableEq, Repr

structure ConnState where
  circuitState : CircuitState
  consecutiveFailures : Nat
  lastFailureTime : Option Int
  halfOpenAttempts : Nat
  deriving DecidableEq, Repr

/-- The constructor state of the process-wide singleton. -/
def initialConnState : ConnState :=
  { circuitState := .CLOSED, consecutiveFailures := 0,
    lastFailureTime := none, halfOpenAttempts := 0 }

def failureThreshold : Nat := 3
def resetTimeoutMs : Int := 30000
def halfOpenMaxAttempts : Nat := 2

/-- `canAttempt`, with `Date.now()` explicit.  Returns the decision and the
updated state.  In the OPEN case the JS guard is
`this.lastFailureTime && now - this.lastFailureTime > resetTimeoutMs`
(`lastFailureTime = 0` would be falsy, hence the `t ≠ 0` conjunct). -/
def canAttempt (now : Int) (s : ConnState) : Bool × ConnState :=
  match s.circuitState with
  | .CLOSED => (true, s)
  | .OPEN =>
    match s.lastFailureTime with
    | some t =>
      if t ≠ 0 ∧ resetTimeoutMs < now - t then
        (true, { s with circuitState := .HALF_OPEN, halfOpenAttempts := 0 })
      else (false, s)
    | none => (false, s)
  | .HALF_OPEN =>
    if s.halfOpenAttempts ≥ halfOpenMaxAttempts then
      (false, { s with circuitState := .OPEN, lastFailureTime := some now })
    else (true, { s with halfOpenAttempts := s.halfOpenAttempts + 1 })

/-- `recordSuccess`. -/
def recordSuccess (s : ConnState) : ConnState :=
  if s.circuitState = .HALF_OPEN then
    { s with circuitState := .CLOSED, consecutiveFailures := 0, halfOpenAttempts := 0 }
  else { s with consecutiveFailures := 0 }

/-- `isRetryableError` from `utils/errors.ts`, on a standardized
`(code, message)` pair. -/
def retryableCodes : List String :=
  ["TIMEOUT_ERROR", "PROCESS_ERROR", "NETWORK_ERROR", "RATE_LIMIT_ERROR"]

def retryableMessages : List String :=
  ["timeout", "connection refused", "network", "rate limit", "too many requests",
   "temporary failure", "try again", "connection error", "unable to connect",
   "internet connection", "econnrefused", "econnreset", "socket hang up", "fetch failed"]

def isRetryableError (code message : String) : Bool :=
  retryableCodes.contains code ||
    retryableMessages.any (fun pat => hasSub (jsToLower message) pat)

/-- The connection-error pattern of `recordFailure`:
the case-insensitive alternation of connection, network, timeout,
unable to connect, internet connection, econnrefused, econnreset,
socket hang up, dns, ENOTFOUND. -/
def connPatternTest (message : String) : Bool :=
  ["connection", "network", "timeout", "unable to connect", "internet connection",
   "econnrefused", "econnreset", "socket hang up", "dns", "enotfound"].any
    (fun pat => hasSub (jsToLower message) pat)

def isConnectionError (code message : String) : Bool :=
  isRetryableError code message && connPatternTest message

/-- `recordFailure`: non-connection errors are ignored; a connection error
bumps `consecutiveFailures`, stamps `lastFailureTime`, and opens the
circuit from HALF_OPEN or once the threshold is reached. -/
def recordFailure (now : Int) (code message : String) (s : ConnState) : ConnState :=
  if !isConnectionError code message then s
  else
    let s1 := { s with consecutiveFailures := s.consecutiveFailures + 1,
                       lastFailureTime := some now }
    if s1.circuitState = .HALF_OPEN then { s1 with circuitState := .OPEN }
    else if s1.consecutiveFailures ≥ failureThreshold then { s1 with circuitState := .OPEN }
    else s1

end Ralphy.Circuit

namespace Ralphy.Hash

/-! ## `FileHashStore`

File bytes are `List Nat`; the SHA-256 digest and gzip are explicit
function parameters, since only their use — never their definition — lives
in the store.  Paths are relative to the task directory
`<projectRoot>/.ralphy-hashes/<taskId>`, so `join(this.taskDir, p)` is
the identity on our keys. -/

structure HashReference where
  hash : String
  hashPath : String
  metadataPath : String
  deriving DecidableEq, Repr

structure HashMetadata where
  originalPath : String
  hash : String
  size : Nat
  mtime : Int
  compressed : Bool
  originalSize : Nat
  storedAt : Int
  taskId : String
  deriving DecidableEq, Repr

/-- In-memory index plus the two kinds of files the store writes under its
task directory: raw content blobs and metadata JSON files. -/
structure HashStoreState where
  files : List (String × HashReference)
  createdAt : Int
  updatedAt : Int
  fsFiles : List (String × List Nat)
  fsMeta : List (String × HashMetadata)
  deriving DecidableEq, Repr

def emptyStore : HashStoreState :=
  { files := [], createdAt := 0, updatedAt := 0, fsFiles := [], fsMeta := [] }

structure AddFileResult where
  success : Bool
  hash : Option String
  error : Option String
  alreadyExists : Option Bool
  deriving DecidableEq, Repr

structure GetFileResult where
  success : Bool
  content : Option (List Nat)
  metadata : Option HashMetadata
  error : Option String
  deriving DecidableEq, Repr

/-- `absoluteHashPath.replace(".gz", "")`: drop the first occurrence of the
substring `.gz`. -/
def dropFirstGz : List Char → List Char
  | [] => []
  | '.' :: 'g' :: 'z' :: rest => rest
  | c :: rest => c :: dropFirstGz rest

/-- `FileHashStore.addFile`, with the source file's bytes and mtime passed
in place of the filesystem read.  `compress` and `compressionThreshold`
carry their source defaults. -/
def addFile (sha256 : List Nat → String) (gzip : List Nat → List Nat) (now : Int)
    (taskId filePath : String) (content : List Nat) (mtime : Int)
    (st : HashStoreState) (compress : Bool := true) (compressionThreshold : Nat := 1024) :
    AddFileResult × HashStoreState :=
  let size := content.length
  let hash := sha256 content
  let hashFileName := hash ++ ".gz"
  let hashPath := "content/" ++ hashFileName
  let alreadyExists := (alGet hashPath st.fsFiles).isSome
  let st1 :=
    if alreadyExists then st
    else
      let shouldCompress := compress && size ≥ compressionThreshold
      let storePath := if shouldCompress then hashPath else String.mk (dropFirstGz hashPath.data)
      let stored := if shouldCompress then gzip content else content
      let metadata : HashMetadata :=
        { originalPath := filePath, hash := hash, size := size, mtime := mtime,
          compressed := shouldCompress, originalSize := size, storedAt := now,
          taskId := taskId }
      { st with fsFiles := alSet storePath stored st.fsFiles,
                fsMeta := alSet ("content/" ++ hash ++ ".json") metadata st.fsMeta }
  let reference : HashReference :=
    { hash := hash,
      hashPath := if alreadyExists then hashPath
        else hash ++ (if compress && size ≥ compressionThreshold then ".gz" else ""),
      metadataPath := "content/" ++ hash ++ ".json" }
  let st2 := { st1 with files := alSet filePath reference st1.files, updatedAt := now }
  ({ success := true, hash := some hash, error := none, alreadyExists := some alreadyExists },
    st2)

/-- `FileHashStore.getFile`: resolve the index reference, load metadata,
then content from `join(taskDir, reference.hashPath)`. -/
def getFile (gunzip : List Nat → List Nat) (filePath : String) (st : HashStoreState) :
    GetFileResult :=
  match alGet filePath st.files with
  | none =>
    { success := false, content := none, metadata := none,
      error := some ("File not in hash store: " ++ filePath) }
  | some reference =>
    match alGet reference.metadataPath st.fsMeta with
    | none =>
      { success := false, content := none, metadata := none,
        error := some ("Metadata not found for: " ++ filePath) }
    | some metadata =>
      match alGet reference.hashPath st.fsFiles with
      | none =>
        { success := false, content := none, metadata := none,
          error := some ("Content not found for: " ++ filePath) }
      | some raw =>
        { success := true,
          content := some (if metadata.compressed then gunzip raw else raw),
          metadata := some metadata, error := none }

/-- A toy injective digest for concrete evaluation: decimal bytes joined by
dashes. -/
def toyHash (content : List Nat) : String :=
  "h" ++ String.intercalate "-" (content.map toString)

end Ralphy.Hash

namespace Ralphy.Locks

/-! ## File lock manager (`src/cli/src/execution/planning.ts`)

State: the in-memory `locks` map, the on-disk lock files (keyed by the
normalized path whose SHA-256 names the file — the digest is injective, so
the path itself is the key), and the process-global `_lastLockCleanup`
stamp.  `Date.now()` is an explicit parameter, held fixed across one call;
sleeps do not advance it.  `normalizePathForLocking` (absolute-path
resolution against `workDir`) is an opaque function parameter `norm`. -/

def LOCK_TIMEOUT_MS : Int := 30000
def LOCK_CLEANUP_INTERVAL_MS : Int := 60000
def LOCK_MAX_LOCKS : Nat := 5000

structure LockInfo where
  timestamp : Int
  timeout : Int
  owner : String
  refreshCount : Nat
  deriving DecidableEq, Repr

/-- An on-disk lock file: parseable JSON with the expected fields, or
empty/corrupt content. -/
inductive DiskLock where
  | valid (info : LockInfo)
  | corrupt
  deriving DecidableEq, Repr

structure LockState where
  mem : List (String × LockInfo)
  disk : List (String × DiskLock)
  lastCleanup : Int
  deriving DecidableEq, Repr

/-- Stable sort by descending timestamp (the comparator
`(a, b) => b.timestamp - a.timestamp`). -/
def insertByTsDesc (x : String × LockInfo) :
    List (String × LockInfo) → List (String × LockInfo)
  | [] => [x]
  | y :: ys => if y.2.timestamp ≥ x.2.timestamp then y :: insertByTsDesc x ys else x :: y :: ys

def sortByTsDesc : List (String × LockInfo) → List (String × LockInfo)
  | [] => []
  | x :: xs => insertByTsDesc x (sortByTsDesc xs)

/-- `cleanupStaleLocks`: evict expired in-memory locks; then, over the
`LOCK_MAX_LOCKS` ceiling, rebuild the map from the locks owned by this
process only (the `toKeep` list). -/
def cleanupStaleLocks (self : String) (now : Int) (mem : List (String × LockInfo)) :
    List (String × LockInfo) :=
  let live := mem.filter (fun p => ¬ (now - p.2.timestamp > p.2.timeout))
  if live.length > LOCK_MAX_LOCKS then
    (sortByTsDesc live).filter (fun p => p.2.owner = self)
  else live

/-- `cleanupStaleLockFiles`: unlink expired and unparseable lock files. -/
def cleanupStaleLockFiles (now : Int) (disk : List (String × DiskLock)) :
    List (String × DiskLock) :=
  disk.filter (fun p =>
    match p.2 with
    | .valid i => ¬ (now - i.timestamp ≥ i.timeout)
    | .corrupt => false)

/-- The periodic-cleanup preamble of each acquisition attempt. -/
def maybeCleanup (self : String) (now : Int) (s : LockState) : LockState :=
  if now - s.lastCleanup > LOCK_CLEANUP_INTERVAL_MS then
    { mem := cleanupStaleLocks self now s.mem,
      disk := cleanupStaleLockFiles now s.disk,
      lastCleanup := now }
  else s

/-- Outcome of one pass through the `for` body of `acquireFileLock`:
either a `return`, or fall to the next attempt (`continue`, or backoff). -/
inductive AcqOutcome where
  | done (ok : Bool) (s : LockState)
  | retry (s : LockState)

/-- One attempt of `acquireFileLock`: periodic cleanup, in-memory check
with re-entrancy, then exclusive file creation with the stale-file
recovery paths. -/
def acqOnce (self : String) (now : Int) (p : String) (reentrant : Bool) (s0 : LockState) :
    AcqOutcome :=
  let s := maybeCleanup self now s0
  let tryCreate : AcqOutcome :=
    match alGet p s.disk with
    | none =>
      let info : LockInfo := { timestamp := now, timeout := LOCK_TIMEOUT_MS,
                               owner := self, refreshCount := 0 }
      .done true { s with disk := alSet p (.valid info) s.disk, mem := alSet p info s.mem }
    | some (.corrupt) => .retry { s with disk := alDel p s.disk }
    | some (.valid i) =>
      if now - i.timestamp ≥ i.timeout then .retry { s with disk := alDel p s.disk }
      else .retry s
  match alGet p s.mem with
  | some existing =>
    if now - existing.timestamp < existing.timeout then
      if existing.owner = self ∧ reentrant then
        let info :=
          { existing with timestamp := now, refreshCount := existing.refreshCount + 1 }
        .done true { s with mem := alSet p info s.mem, disk := alSet p (.valid info) s.disk }
      else .done false s
    else tryCreate
  | none => tryCreate

/-- The attempt loop of `acquireFileLock` (attempts 1..maxRetries; both
`continue` and the backoff path consume an attempt). -/
def acqAttempts (self : String) (now : Int) (p : String) (reentrant : Bool) :
    Nat → LockState → Bool × LockState
  | 0, s => (false, s)
  | n + 1, s =>
    match acqOnce self now p reentrant s with
    | .done ok s' => (ok, s')
    | .retry s' => acqAttempts self now p reentrant n s'

/-- `acquireFileLock` with its default `maxRetries = 5`,
`allowReentrant = false`. -/
def acquireFileLock (self : String) (now : Int) (norm : String → String) (filePath : String)
    (s : LockState) (maxRetries : Nat := 5) (allowReentrant : Bool := false) :
    Bool × LockState :=
  acqAttempts self now (norm filePath) allowReentrant maxRetries s

/-- `releaseFileLock`: unconditionally delete the in-memory entry and
unlink the lock file — no ownership check of any kind. -/
def releaseFileLock (norm : String → String) (filePath : String) (s : LockState) : LockState :=
  { s with mem := alDel (norm filePath) s.mem, disk := alDel (norm filePath) s.disk }

/-- The dedup pass of `acquireLocksForFiles`: keep the first file for each
normalized path, in order. -/
def dedupByNorm (norm : String → String) : List String → List String → List String
  | _, [] => []
  | seen, f :: fs =>
    if seen.contains (norm f) then dedupByNorm norm seen fs
    else f :: dedupByNorm norm (norm f :: seen) fs

/-- The rollback of `acquireLocksForFiles`: release the locks acquired in
this call, in order. -/
def rollbackLocks (norm : String → String) (acquired : List String) (s : LockState) :
    LockState :=
  acquired.foldl (fun st f => releaseFileLock norm f st) s

/-- The acquisition loop of `acquireLocksForFiles`. -/
def acqMany (self : String) (now : Int) (norm : String → String) (acquired : List String) :
    List String → LockState → Bool × LockState
  | [], s => (true, s)
  | f :: fs, s =>
    match acquireFileLock self now norm f s with
    | (true, s') => acqMany self now norm (acquired ++ [f]) fs s'
    | (false, s') => (false, rollbackLocks norm acquired s')

/-- `acquireLocksForFiles`. -/
def acquireLocksForFiles (self : String) (now : Int) (norm : String → String)
    (files : List String) (s : LockState) : Bool × LockState :=
  acqMany self now norm [] (dedupByNorm norm [] files) s

/-- Does the caller (owner string `self`) hold an in-memory lock on
normalized path `p`? -/
def selfHeldB (self : String) (s : LockState) (p : String) : Bool :=
  s.mem.any (fun q => q.1 = p ∧ q.2.owner = self)

/-- A state in which a DIFFERENT process (`"other"`) holds a live lock on
`"a"` — for exercising `releaseFileLock`'s lack of an ownership check. -/
def otherOwnedState : LockState :=
  { mem := [("a", { timestamp := 500, timeout := 30000, owner := "other", refreshCount := 0 })],
    disk := [("a", .valid { timestamp := 500, timeout := 30000, owner := "other", refreshCount := 0 })],
    lastCleanup := 0 }

/-- Counterexample state for the all-or-nothing claim: the caller already
holds a live lock on `"a"` from an earlier call. -/
def preHeldState : LockState :=
  { mem := [("a", { timestamp := 0, timeout := 30000, owner := "self", refreshCount := 0 })],
    disk := [("a", .valid { timestamp := 0, timeout := 30000, owner := "self", refreshCount := 0 })],
    lastCleanup := 0 }

end Ralphy.Locks

namespace Ralphy

/-! ## Lemmas about the `Map` embedding -/

theorem alGet_set {V : Type} (k k' : String) (v : V) (l : List (String × V)) :
    alGet k (alSet k' v l) = if k' = k then some v else alGet k l := by
  induction l with
  | nil => simp [alSet, alGet]
  | cons hd tl ih =>
    obtain ⟨a, b⟩ := hd
    by_cases hak' : a = k'
    · rw [show alSet k' v ((a, b) :: tl) = (k', v) :: tl by simp [alSet, hak']]
      by_cases hk'k : k' = k
      · simp [alGet, hk'k]
      · have hak : ¬ a = k := by rw [hak']; exact hk'k
        simp [alGet, hk'k, hak]
    · rw [show alSet k' v ((a, b) :: tl) = (a, b) :: alSet k' v tl by simp [alSet, hak']]
      by_cases hak : a = k
      · have hk'k : ¬ k' = k := fun h => hak' (hak.trans h.symm)
        simp [alGet, hak, hk'k]
      · simp [alGet, hak, ih]

theorem alGet_del {V : Type} (k k' : String) (l : List (String × V)) :
    alGet k (alDel k' l) = if k' = k then none else alGet k l := by
  induction l with
  | nil => simp [alDel, alGet]
  | cons hd tl ih =>
    obtain ⟨a, b⟩ := hd
    by_cases hak' : a = k'
    · rw [show alDel k' ((a, b) :: tl) = alDel k' tl by simp [alDel, List.filter_cons, hak']]
      by_cases hk'k : k' = k
      · simpa [hk'k] using ih
      · have hak : ¬ a = k := by rw [hak']; exact hk'k
        simp only [ih, alGet]
        simp [hk'k, hak]
    · rw [show alDel k' ((a, b) :: tl) = (a, b) :: alDel k' tl by
        simp [alDel, List.filter_cons, hak']]
      by_cases hak : a = k
      · have hk'k : ¬ k' = k := fun h => hak' (hak.trans h.symm)
        simp [alGet, hak, hk'k]
      · simp only [alGet, hak, if_neg, ih]
        simp [hak]

theorem alHas_set {V : Type} (k k' : String) (v : V) (l : List (String × V)) :
    alHas k (alSet k' v l) = ((k' = k : Bool) || alHas k l) := by
  by_cases h : k' = k <;> simp [alHas, alGet_set, h]

theorem alHas_del {V : Type} (k k' : String) (l : List (String × V)) :
    alHas k (alDel k' l) = (!(k' = k : Bool) && alHas k l) := by
  by_cases h : k' = k <;> simp [alHas, alGet_del, h]

theorem mem_of_alGet {V : Type} {k : String} {v : V} {l : List (String × V)}
    (h : alGet k l = some v) : (k, v) ∈ l := by
  induction l with
  | nil => simp [alGet] at h
  | cons hd tl ih =>
    obtain ⟨a, b⟩ := hd
    by_cases hak : a = k
    · simp [alGet, hak] at h
      subst hak
      subst h
      exact List.mem_cons_self _ _
    · simp [alGet, hak] at h
      exact List.mem_cons_of_mem _ (ih h)

theorem alHas_of_mem {V : Type} {k : String} {v : V} {l : List (String × V)}
    (h : (k, v) ∈ l) : alHas k l = true := by
  induction l with
  | nil => simp at h
  | cons hd tl ih =>
    obtain ⟨a, b⟩ := hd
    by_cases hak : a = k
    · simp [alHas, alGet, hak]
    · rcases List.mem_cons.mp h with h1 | h1
      · exact absurd (congrArg Prod.fst h1.symm) hak
      · simpa [alHas, alGet, hak] using ih h1

theorem mem_alSet {V : Type} {x : String × V} {k : String} {v : V} {l : List (String × V)}
    (h : x ∈ alSet k v l) : x ∈ l ∨ x = (k, v) := by
  induction l with
  | nil => simp [alSet] at h; right; exact h
  | cons hd tl ih =>
    obtain ⟨a, b⟩ := hd
    by_cases hak : a = k
    · rw [show alSet k v ((a, b) :: tl) = (k, v) :: tl by simp [alSet, hak]] at h
      rcases List.mem_cons.mp h with h1 | h1
      · right; exact h1
      · left; exact List.mem_cons_of_mem _ h1
    · rw [show alSet k v ((a, b) :: tl) = (a, b) :: alSet k v tl by simp [alSet, hak]] at h
      rcases List.mem_cons.mp h with h1 | h1
      · left; simp [h1]
      · rcases ih h1 with h2 | h2
        · left; exact List.mem_cons_of_mem _ h2
        · right; exact h2

theorem mem_alDel {V : Type} {x : String × V} {k : String} {l : List (String × V)}
    (h : x ∈ alDel k l) : x ∈ l ∧ x.1 ≠ k := by
  simp only [alDel] at h
  have h1 := List.mem_filter.mp h
  refine ⟨h1.1, by simpa using h1.2⟩

end Ralphy

namespace Ralphy.Csv

/-! ## Claim C9 — CSV round trip (scenario S1) -/

/-- Claim C9, counterexample: parsing the S1 input does yield exactly two
tasks, but writing them back is NOT byte-identical to the input modulo a
trailing newline — the writer drops the unnecessary quotes around
`Use OAuth`. -/
theorem C9_csv_roundtrip_counterexample :
    (readFileTasks s1Input).length = 2 ∧
    writeFileTasks (readFileTasks s1Input) ≠ s1Input ∧
    writeFileTasks (readFileTasks s1Input) ≠ s1Input ++ "\n" ∧
    writeFileTasks (readFileTasks s1Input) ++ "\n" ≠ s1Input := by
  decide

/-- Claim C9, amended: parsing the S1 input yields exactly the two expected
tasks; writing them back yields the input with the unnecessary quotes
around `Use OAuth` dropped (and nothing else changed), so the round trip is
identical as parsed CSV rows rather than byte-identical. -/
theorem C9_csv_roundtrip_amended :
    readFileTasks s1Input =
      [{ id := "1", title := "Add login", completed := false, parallelGroup := 1,
         description := "Use OAuth" },
       { id := "2", title := "Fix, bug", completed := true, parallelGroup := 0,
         description := "" }] ∧
    writeFileTasks (readFileTasks s1Input) = s1Output ∧
    parseCSV (writeFileTasks (readFileTasks s1Input)) = parseCSV s1Input ∧
    readFileTasks (writeFileTasks (readFileTasks s1Input)) = readFileTasks s1Input := by
  decide

end Ralphy.Csv

namespace Ralphy.Queue

/-! ## Claim C3 — queue partition uniqueness -/

/-- Claim C3, counterexample: `enqueue` only guards against `pending` and
`running`, so re-enqueueing a completed task id puts it in two partitions
at once (`pending` and `completed`). -/
theorem C3_partition_uniqueness_counterexample :
    partCount (runOps emptyQueue
      [.enqueue ⟨"T", "t"⟩ .normal 3 0, .dequeue 1, .markComplete "T" 2,
       .enqueue ⟨"T", "t"⟩ .normal 3 3]) "T" = 2 ∧
    alHas "T" (runOps emptyQueue
      [.enqueue ⟨"T", "t"⟩ .normal 3 0, .dequeue 1, .markComplete "T" 2,
       .enqueue ⟨"T", "t"⟩ .normal 3 3]).pending = true ∧
    alHas "T" (runOps emptyQueue
      [.enqueue ⟨"T", "t"⟩ .normal 3 0, .dequeue 1, .markComplete "T" 2,
       .enqueue ⟨"T", "t"⟩ .normal 3 3]).completed = true := by
  decide

theorem betterOf_cases (b : Option QueueItem) (x : QueueItem) :
    betterOf b x = some x ∨ betterOf b x = b := by
  cases b with
  | none => left; rfl
  | some y =>
    simp only [betterOf]
    split_ifs <;> simp

theorem selectBest_aux (tl : List (String × QueueItem)) :
    ∀ (acc : Option QueueItem) (it : QueueItem),
      List.foldl (fun best p => betterOf best p.2) acc tl = some it →
      (∃ k, (k, it) ∈ tl) ∨ acc = some it := by
  induction tl with
  | nil => intro acc it h; right; exact h
  | cons hd tl ih =>
    intro acc it h
    simp only [List.foldl_cons] at h
    rcases ih (betterOf acc hd.2) it h with h1 | h1
    · obtain ⟨k, hk⟩ := h1
      exact Or.inl ⟨k, List.mem_cons_of_mem _ hk⟩
    · rcases betterOf_cases acc hd.2 with h2 | h2
      · rw [h1] at h2
        have : it = hd.2 := Option.some_inj.mp h2
        subst this
        exact Or.inl ⟨hd.1, by simp⟩
      · right; rw [← h2, h1]

theorem selectBest_mem {l : List (String × QueueItem)} {it : QueueItem}
    (h : selectBest l = some it) : ∃ k, (k, it) ∈ l := by
  rcases selectBest_aux l none it h with h1 | h1
  · exact h1
  · simp at h1

theorem wk_alSet {part : List (String × QueueItem)} {k : String} {v : QueueItem}
    (hp : ∀ p ∈ part, p.2.task.id = p.1) (hv : v.task.id = k) :
    ∀ p ∈ alSet k v part, p.2.task.id = p.1 := by
  intro p hmem
  rcases mem_alSet hmem with h | h
  · exact hp _ h
  · subst h; exact hv

theorem wk_alDel {part : List (String × QueueItem)} {k : String}
    (hp : ∀ p ∈ part, p.2.task.id = p.1) :
    ∀ p ∈ alDel k part, p.2.task.id = p.1 :=
  fun _ hm => hp _ (mem_alDel hm).1

theorem wellKeyed_step (q : MemQueue) (op : QOp) (h : WellKeyed q) : WellKeyed (stepOp q op) := by
  obtain ⟨h1, h2, h3, h4, h5⟩ := h
  cases op with
  | enqueue t p m now =>
    simp only [stepOp]
    cases hE : enqueue t p m now q with
    | error e => exact ⟨h1, h2, h3, h4, h5⟩
    | ok q' =>
      simp only [enqueue] at hE
      split at hE
      · cases hE
      · cases hE
        exact ⟨wk_alSet h1 rfl, h2, h3, h4, h5⟩
  | dequeue now =>
    simp only [stepOp, dequeue]
    cases hsel : selectBest q.pending with
    | none => exact ⟨h1, h2, h3, h4, h5⟩
    | some it =>
      exact ⟨wk_alDel h1, wk_alSet h2 rfl, h3, h4, h5⟩
  | markComplete id' now =>
    simp only [stepOp, markComplete]
    cases hr : alGet id' q.running with
    | none => exact ⟨h1, h2, h3, h4, h5⟩
    | some it =>
      have hit : it.task.id = id' := h2 _ (mem_of_alGet hr)
      exact ⟨h1, wk_alDel h2, wk_alSet h3 hit, h4, h5⟩
  | markFailed id' now =>
    simp only [stepOp, markFailed]
    cases hr : alGet id' q.running with
    | none => exact ⟨h1, h2, h3, h4, h5⟩
    | some it =>
      have hit : it.task.id = id' := h2 _ (mem_of_alGet hr)
      dsimp only
      by_cases hc : it.attempts + 1 < it.maxAttempts
      · rw [if_pos hc]
        exact ⟨wk_alSet h1 hit, wk_alDel h2, h3, h4, h5⟩
      · rw [if_neg hc]
        exact ⟨h1, wk_alDel h2, h3, wk_alSet h4 hit, h5⟩
  | markSkipped id' now =>
    simp only [stepOp, markSkipped]
    cases hp : alGet id' q.pending with
    | some it =>
      have hit : it.task.id = id' := h1 _ (mem_of_alGet hp)
      simp only [Option.orElse]
      exact ⟨wk_alDel h1, wk_alDel h2, h3, h4, wk_alSet h5 hit⟩
    | none =>
      simp only [Option.orElse]
      cases hr : alGet id' q.running with
      | none => exact ⟨h1, h2, h3, h4, h5⟩
      | some it =>
        have hit : it.task.id = id' := h2 _ (mem_of_alGet hr)
        exact ⟨wk_alDel h1, wk_alDel h2, h3, h4, wk_alSet h5 hit⟩
  | resetTask id' =>
    simp only [stepOp, resetTask]
    cases hf : alGet id' q.failed with
    | some it =>
      have hit : it.task.id = id' := h4 _ (mem_of_alGet hf)
      simp only [Option.orElse]
      exact ⟨wk_alSet h1 hit, h2, h3, wk_alDel h4, wk_alDel h5⟩
    | none =>
      simp only [Option.orElse]
      cases hs : alGet id' q.skipped with
      | none => exact ⟨h1, h2, h3, h4, h5⟩
      | some it =>
        have hit : it.task.id = id' := h5 _ (mem_of_alGet hs)
        exact ⟨wk_alSet h1 hit, h2, h3, wk_alDel h4, wk_alDel h5⟩
  | removeTask id' =>
    exact ⟨wk_alDel h1, wk_alDel h2, wk_alDel h3, wk_alDel h4, wk_alDel h5⟩

end Ralphy.Queue

namespace Ralphy.Queue

/-- Claim C3, amended: every queue operation preserves "the id is in at
most one partition", except an `enqueue` of an id that currently sits in a
terminal partition (completed/failed/skipped) — `enqueue` only guards
against `pending` and `running`, so such an id gains a second entry.  The
well-keyedness hypothesis (every entry stored under its own task id) holds
for every queue reachable from `emptyQueue` by `wellKeyed_step`. -/
theorem C3_partition_uniqueness_amended (q : MemQueue) (op : QOp) (id : String)
    (hwk : WellKeyed q) (hcount : partCount q id ≤ 1)
    (henq : ∀ t priority maxAttempts now, op = QOp.enqueue t priority maxAttempts now →
      t.id = id →
      alHas id q.completed = false ∧ alHas id q.failed = false ∧ alHas id q.skipped = false) :
    partCount (stepOp q op) id ≤ 1 ∧ WellKeyed (stepOp q op) := by
  refine ⟨?_, wellKeyed_step q op hwk⟩
  cases op with
  | enqueue t p m now =>
    simp only [stepOp]
    cases hE : enqueue t p m now q with
    | error e => exact hcount
    | ok q' =>
      simp only [enqueue] at hE
      by_cases hg : (alHas t.id q.pending || alHas t.id q.running) = true
      · rw [if_pos hg] at hE; cases hE
      · rw [if_neg hg] at hE
        cases hE
        simp only [Bool.or_eq_true, not_or, Bool.not_eq_true] at hg
        by_cases hid : t.id = id
        · obtain ⟨hc, hf, hs⟩ := henq t p m now rfl hid
          subst hid
          simp only [partCount, alHas_set, hg.1, hg.2, hc, hf, hs] at *
          simp
        · simp only [partCount, alHas_set, hid] at *
          simpa using hcount
  | dequeue now =>
    simp only [stepOp, dequeue]
    cases hsel : selectBest q.pending with
    | none => exact hcount
    | some it =>
      dsimp only
      obtain ⟨k, hk⟩ := selectBest_mem hsel
      have hkid : it.task.id = k := hwk.1 _ hk
      by_cases hid : it.task.id = id
      · have hpend : alHas id q.pending = true := by
          rw [← hid, hkid]; exact alHas_of_mem hk
        simp only [partCount, alHas_set, alHas_del, hid, hpend] at *
        cases hr : alHas id q.running <;> cases hc : alHas id q.completed <;>
          cases hf : alHas id q.failed <;> cases hs : alHas id q.skipped <;>
          simp_all
      · simp only [partCount, alHas_set, alHas_del, hid] at *
        simpa using hcount
  | markComplete id' now =>
    simp only [stepOp, markComplete]
    cases hr : alGet id' q.running with
    | none => exact hcount
    | some it =>
      dsimp only
      by_cases hid : id' = id
      · subst hid
        have hrun : alHas id' q.running = true := by simp [alHas, hr]
        simp only [partCount, alHas_set, alHas_del, hrun] at *
        cases hp : alHas id' q.pending <;> cases hc : alHas id' q.completed <;>
          cases hf : alHas id' q.failed <;> cases hs : alHas id' q.skipped <;>
          simp_all
      · simp only [partCount, alHas_set, alHas_del, hid] at *
        simpa using hcount
  | markFailed id' now =>
    simp only [stepOp, markFailed]
    cases hr : alGet id' q.running with
    | none => exact hcount
    | some it =>
      dsimp only
      have hrun : alHas id' q.running = true := by simp [alHas, hr]
      by_cases hc2 : it.attempts + 1 < it.maxAttempts
      · rw [if_pos hc2]
        by_cases hid : id' = id
        · subst hid
          simp only [partCount, alHas_set, alHas_del, hrun] at *
          cases hp : alHas id' q.pending <;> cases hc : alHas id' q.completed <;>
            cases hf : alHas id' q.failed <;> cases hs : alHas id' q.skipped <;>
            simp_all
        · simp only [partCount, alHas_set, alHas_del, hid] at *
          simpa using hcount
      · rw [if_neg hc2]
        by_cases hid : id' = id
        · subst hid
          simp only [partCount, alHas_set, alHas_del, hrun] at *
          cases hp : alHas id' q.pending <;> cases hc : alHas id' q.completed <;>
            cases hf : alHas id' q.failed <;> cases hs : alHas id' q.skipped <;>
            simp_all
        · simp only [partCount, alHas_set, alHas_del, hid] at *
          simpa using hcount
  | markSkipped id' now =>
    simp only [stepOp, markSkipped]
    cases hp : alGet id' q.pending with
    | some it =>
      simp only [Option.orElse]
      have hpend : alHas id' q.pending = true := by simp [alHas, hp]
      by_cases hid : id' = id
      · subst hid
        simp only [partCount, alHas_set, alHas_del, hpend] at *
        cases hr : alHas id' q.running <;> cases hc : alHas id' q.completed <;>
          cases hf : alHas id' q.failed <;> cases hs : alHas id' q.skipped <;>
          simp_all
      · simp only [partCount, alHas_set, alHas_del, hid] at *
        simpa using hcount
    | none =>
      simp only [Option.orElse]
      cases hr : alGet id' q.running with
      | none => exact hcount
      | some it =>
        dsimp only
        have hrun : alHas id' q.running = true := by simp [alHas, hr]
        by_cases hid : id' = id
        · subst hid
          simp only [partCount, alHas_set, alHas_del, hrun] at *
          cases hp2 : alHas id' q.pending <;> cases hc : alHas id' q.completed <;>
            cases hf : alHas id' q.failed <;> cases hs : alHas id' q.skipped <;>
            simp_all
        · simp only [partCount, alHas_set, alHas_del, hid] at *
          simpa using hcount
  | resetTask id' =>
    simp only [stepOp, resetTask]
    cases hf : alGet id' q.failed with
    | some it =>
      simp only [Option.orElse]
      have hfail : alHas id' q.failed = true := by simp [alHas, hf]
      by_cases hid : id' = id
      · subst hid
        simp only [partCount, alHas_set, alHas_del, hfail] at *
        cases hp : alHas id' q.pending <;> cases hr : alHas id' q.running <;>
          cases hc : alHas id' q.completed <;> cases hs : alHas id' q.skipped <;>
          simp_all
      · simp only [partCount, alHas_set, alHas_del, hid] at *
        simpa using hcount
    | none =>
      simp only [Option.orElse]
      cases hs : alGet id' q.skipped with
      | none => exact hcount
      | some it =>
        have hskip : alHas id' q.skipped = true := by simp [alHas, hs]
        by_cases hid : id' = id
        · subst hid
          simp only [partCount, alHas_set, alHas_del, hskip] at *
          cases hp : alHas id' q.pending <;> cases hr : alHas id' q.running <;>
            cases hc : alHas id' q.completed <;> cases hf2 : alHas id' q.failed <;>
            simp_all
        · simp only [partCount, alHas_set, alHas_del, hid] at *
          simpa using hcount
  | removeTask id' =>
    simp only [stepOp, removeTask]
    by_cases hid : id' = id
    · simp [partCount, alHas_del, hid]
    · simp only [partCount, alHas_del, hid] at *
      simpa using hcount

/-- Claim C3, witness of the amended theorem at a concrete input. -/
theorem C3_partition_uniqueness_witness :
    partCount (stepOp emptyQueue (QOp.enqueue ⟨"T", "t"⟩ .normal 3 0)) "T" ≤ 1 ∧
    WellKeyed (stepOp emptyQueue (QOp.enqueue ⟨"T", "t"⟩ .normal 3 0)) :=
  C3_partition_uniqueness_amended emptyQueue (QOp.enqueue ⟨"T", "t"⟩ .normal 3 0) "T"
    (by refine ⟨?_, ?_, ?_, ?_, ?_⟩ <;> intro p hp <;> simp [emptyQueue] at hp)
    (by decide)
    (fun _ _ _ _ _ _ => by decide)

/-! ## Claim C6 — queue retry budget -/

/-- Claim C6, counterexample: with `maxAttempts = 3`, an always-failing
task reaches the `failed` partition after only 2 dequeue–markFailed
cycles (attempts has already reached 4), because `dequeue` increments
`attempts` as well; the claim predicts 3 `markFailed` calls. -/
theorem C6_retry_budget_counterexample :
    cycles 3 1 = pendStateAt 3 2 ∧
    alHas "T" (cycles 3 2).failed = true ∧
    alHas "T" (cycles 3 2).pending = false ∧
    (alGet "T" (cycles 3 2).failed).map QueueItem.attempts = some 4 := by
  decide

end Ralphy.Queue

namespace Ralphy.Queue

theorem cycles_zero (m : Nat) : cycles m 0 = pendStateAt m 0 := by
  simp only [cycles, Function.iterate_zero, id_eq]
  rfl

theorem failCycle_pend_step (m a : Nat) (h : a + 2 < m) :
    failCycle (pendStateAt m a) = pendStateAt m (a + 2) := by
  show markFailed "T" 0 (dequeue 0 (pendStateAt m a)).2 = pendStateAt m (a + 2)
  have hd : (dequeue 0 (pendStateAt m a)).2 =
      { pending := [], running := [("T", runItem m (a + 1))],
        completed := [], failed := [], skipped := [] } := rfl
  rw [hd]
  have hg : alGet "T" [("T", runItem m (a + 1))] = some (runItem m (a + 1)) := rfl
  simp only [markFailed, hg]
  rw [if_pos (show (runItem m (a + 1)).attempts + 1 < (runItem m (a + 1)).maxAttempts from h)]
  show pendStateAt m (a + 1 + 1) = pendStateAt m (a + 2)
  rfl

theorem failCycle_fail_step (m a : Nat) (h : ¬ a + 2 < m) :
    failCycle (pendStateAt m a) = failedStateAt m (a + 2) := by
  show markFailed "T" 0 (dequeue 0 (pendStateAt m a)).2 = failedStateAt m (a + 2)
  have hd : (dequeue 0 (pendStateAt m a)).2 =
      { pending := [], running := [("T", runItem m (a + 1))],
        completed := [], failed := [], skipped := [] } := rfl
  rw [hd]
  have hg : alGet "T" [("T", runItem m (a + 1))] = some (runItem m (a + 1)) := rfl
  simp only [markFailed, hg]
  rw [if_neg (show ¬ (runItem m (a + 1)).attempts + 1 < (runItem m (a + 1)).maxAttempts from h)]
  show failedStateAt m (a + 1 + 1) = failedStateAt m (a + 2)
  rfl

theorem cycles_pend (m : Nat) : ∀ k : Nat, 2 * k < m → cycles m k = pendStateAt m (2 * k) := by
  intro k
  induction k with
  | zero => intro _; simpa using cycles_zero m
  | succ k ih =>
    intro h
    have hk : 2 * k < m := by omega
    have hstep : cycles m (k + 1) = failCycle (cycles m k) := by
      simp [cycles, Function.iterate_succ_apply']
    rw [hstep, ih hk, failCycle_pend_step m (2 * k) (by omega)]
    congr 1

/-- Claim C6, amended: `markFailed` increments `attempts` and routes to
`pending` iff still below `maxAttempts` (else `failed`) — but `dequeue`
increments `attempts` too, so an always-failing task with
`maxAttempts = m` reaches the `failed` partition after `(m + 1) / 2`
(i.e. ⌈m/2⌉) dequeue–markFailed cycles, not `m`: after `j` cycles with
`2 * j < m` it is still pending with `attempts = 2 * j`, and cycle number
`(m + 1) / 2` puts it into `failed` with `attempts = 2 * ((m + 1) / 2)`. -/
theorem C6_retry_budget_amended (m : Nat) (hm : 1 ≤ m) :
    (∀ j, 2 * j < m → cycles m j = pendStateAt m (2 * j)) ∧
    cycles m ((m + 1) / 2) = failedStateAt m (2 * ((m + 1) / 2)) := by
  refine ⟨cycles_pend m, ?_⟩
  have hK : (m + 1) / 2 = ((m + 1) / 2 - 1) + 1 := by omega
  rw [hK]
  have hstep : cycles m (((m + 1) / 2 - 1) + 1) = failCycle (cycles m ((m + 1) / 2 - 1)) := by
    simp [cycles, Function.iterate_succ_apply']
  rw [hstep, cycles_pend m ((m + 1) / 2 - 1) (by omega),
    failCycle_fail_step m (2 * ((m + 1) / 2 - 1)) (by omega)]
  congr 1

/-- Claim C6, witness of the amended theorem at `m = 3`. -/
theorem C6_retry_budget_witness :
    cycles 3 1 = pendStateAt 3 2 ∧ cycles 3 2 = failedStateAt 3 4 := by
  have h := C6_retry_budget_amended 3 (by decide)
  exact ⟨h.1 1 (by decide), h.2⟩

end Ralphy.Queue

namespace Ralphy

theorem alGet_append_left {V : Type} {k : String} {v : V} {l1 l2 : List (String × V)}
    (h : alGet k l1 = some v) : alGet k (l1 ++ l2) = some v := by
  induction l1 with
  | nil => simp [alGet] at h
  | cons hd tl ih =>
    obtain ⟨a, b⟩ := hd
    by_cases hak : a = k
    · simp [alGet, hak] at h ⊢
      exact h
    · simp [alGet, hak] at h ⊢
      exact ih h

theorem alGet_map_val {V W : Type} (f : V → W) (k : String) (l : List (String × V)) :
    alGet k (l.map (fun p => (p.1, f p.2))) = (alGet k l).map f := by
  induction l with
  | nil => simp [alGet]
  | cons hd tl ih =>
    obtain ⟨a, b⟩ := hd
    by_cases hak : a = k <;> simp [alGet, hak, ih]

theorem alGet_filter_key {V : Type} (pred : String → Bool) (k : String)
    (l : List (String × V)) :
    alGet k (l.filter (fun p => pred p.1)) = if pred k then alGet k l else none := by
  induction l with
  | nil => simp [alGet]
  | cons hd tl ih =>
    obtain ⟨a, b⟩ := hd
    by_cases hak : a = k
    · subst hak
      by_cases hp : pred a <;> simp [alGet, List.filter_cons, hp, ih]
    · by_cases hp : pred a <;> by_cases hpk : pred k <;>
        simp [alGet, List.filter_cons, hp, hpk, hak, ih]

end Ralphy

namespace Ralphy.State

/-! ## Claim C7 — state-manager crash recovery -/

theorem mergeSource_preserves (st sp : String) (source : List Task) :
    ∀ (l : List (String × TaskStateEntry)) (k : String) (v : TaskStateEntry),
      alGet k l = some v →
      ∃ v', alGet k (mergeSource st sp l source) = some v' ∧
        v'.state = v.state ∧ v'.attemptCount = v.attemptCount := by
  induction source with
  | nil => intro l k v h; exact ⟨v, h, rfl, rfl⟩
  | cons t ts ih =>
    intro l k v h
    have hfold : mergeSource st sp l (t :: ts) =
        mergeSource st sp
          (match alGet (buildTaskKey st sp t.id) l with
           | none => l ++ [(buildTaskKey st sp t.id,
               { id := t.id, title := t.title, state := .pending, attemptCount := 0,
                 lastAttemptTime := none, errorHistory := [] })]
           | some e => alSet (buildTaskKey st sp t.id) { e with title := t.title } l) ts := rfl
    rw [hfold]
    by_cases hkey : buildTaskKey st sp t.id = k
    · rw [hkey, h]
      have hset : alGet k (alSet k { v with title := t.title } l) =
          some { v with title := t.title } := by
        simp [alGet_set]
      obtain ⟨v', hv', hs, ha⟩ := ih _ k { v with title := t.title } hset
      exact ⟨v', hv', hs, ha⟩
    · cases hg : alGet (buildTaskKey st sp t.id) l with
      | none =>
        exact ih _ k v (alGet_append_left h)
      | some e =>
        have hkeep : alGet k (alSet (buildTaskKey st sp t.id) { e with title := t.title } l) =
            some v := by
          rw [alGet_set, if_neg hkey]; exact h
        exact ih _ k v hkeep

/-- Claim C7: after `initialize`, every persisted entry that survives the
merge (its key occurs in the source) is present; if it was persisted as
`running` it is now `pending` with `attemptCount = 0`, and otherwise it
keeps both its state and its attempt count. -/
theorem C7_crash_recovery (sourceType sourcePath : String)
    (persisted : List (String × TaskStateEntry)) (source : List Task)
    (k : String) (e : TaskStateEntry)
    (hget : alGet k persisted = some e)
    (hsrc : ∃ t ∈ source, buildTaskKey sourceType sourcePath t.id = k) :
    ∃ e', alGet k (tsInitialize sourceType sourcePath persisted source) = some e' ∧
      (e.state = .running → e'.state = .pending ∧ e'.attemptCount = 0) ∧
      (e.state ≠ .running → e'.state = e.state ∧ e'.attemptCount = e.attemptCount) := by
  have hreset : alGet k (resetRunning persisted) = some (resetEntry e) := by
    simp only [resetRunning]
    rw [alGet_map_val]
    simp [hget]
  obtain ⟨v', hv', hs, ha⟩ := mergeSource_preserves sourceType sourcePath source _ k _ hreset
  have hpred : ((source.map (fun t => buildTaskKey sourceType sourcePath t.id)).contains k)
      = true := by
    obtain ⟨t, ht, hk⟩ := hsrc
    exact List.elem_eq_true_of_mem (List.mem_map.mpr ⟨t, ht, hk⟩)
  refine ⟨v', ?_, ?_, ?_⟩
  · simp only [tsInitialize, dropStale]
    rw [alGet_filter_key, if_pos hpred]
    exact hv'
  · intro hrun
    refine ⟨?_, ?_⟩
    · rw [hs]; simp [resetEntry, hrun]
    · rw [ha]; simp [resetEntry, hrun]
  · intro hrun
    refine ⟨?_, ?_⟩
    · rw [hs]; simp [resetEntry, hrun]
    · rw [ha]; simp [resetEntry, hrun]

/-- Claim C7, witness: a concrete interrupted `running` entry with
`attemptCount = 5` comes back `pending` with `attemptCount = 0`. -/
theorem C7_crash_recovery_witness :
    ∃ e', alGet "yaml:p:1" (tsInitialize "yaml" "p"
      [("yaml:p:1",
        { id := "1", title := "A", state := .running, attemptCount := 5,
          lastAttemptTime := some 7, errorHistory := ["e"] })]
      [⟨"1", "A"⟩]) = some e' ∧
      (TaskState.running = TaskState.running → e'.state = .pending ∧ e'.attemptCount = 0) ∧
      (TaskState.running ≠ TaskState.running →
        e'.state = TaskState.running ∧ e'.attemptCount = 5) := by
  have h := C7_crash_recovery "yaml" "p"
    [("yaml:p:1",
      { id := "1", title := "A", state := .running, attemptCount := 5,
        lastAttemptTime := some 7, errorHistory := ["e"] })]
    [⟨"1", "A"⟩] "yaml:p:1"
    { id := "1", title := "A", state := .running, attemptCount := 5,
      lastAttemptTime := some 7, errorHistory := ["e"] }
    (by simp [alGet]) ⟨⟨"1", "A"⟩, by simp, by decide⟩
  exact h

end Ralphy.State

namespace Ralphy.Pollution

/-! ## Claim C2 — prototype-pollution rejection -/

/-- Claim C2: the regular expression the guards use never matches the
dangerous keys.  Payloads containing the literal keys `"__proto__"`,
`"constructor"` and `"prototype"` all pass `loadHashIndexGuard` and
`loadStateJsonGuard` untouched, so nothing is rejected before (or after)
the keys are used as map indices. -/
theorem C2_pollution_guard_bug :
    hasSub payloadProto "\"__proto__\"" = true ∧
    pollutionRegexMatches payloadProto = false ∧
    loadHashIndexGuard payloadProto = .ok () ∧
    loadStateJsonGuard payloadProto = .ok () ∧
    hasSub payloadCtor "\"constructor\"" = true ∧
    pollutionRegexMatches payloadCtor = false ∧
    loadHashIndexGuard payloadCtor = .ok () ∧
    hasSub payloadProtoType "\"prototype\"" = true ∧
    pollutionRegexMatches payloadProtoType = false ∧
    loadHashIndexGuard payloadProtoType = .ok () ∧
    pollutionRegexMatches "x \"__proto\"__ y" = true :=
  ⟨by decide, by decide, rfl, rfl, by decide, by decide, rfl, by decide, by decide, rfl,
    by decide⟩

end Ralphy.Pollution

namespace Ralphy.Exec

/-! ## Claim C4 — command-runner injection safety -/

/-- Claim C4, counterexample: on the Bun runtime path no validation runs
at all — an argument containing `;` fails `validateCommandAndArgs`, yet
`execCommand` (and `execCommandStreaming`) spawn anyway; and on
Windows+Bun the command is run through the `cmd.exe` shell. -/
theorem C4_injection_safety_counterexample :
    (validateCommandAndArgs false "git" ["a;b"]).valid = false ∧
    execCommandModel true false "git" ["a;b"] = .spawned ["git", "a;b"] ∧
    execStreamingModel true false "git" ["a;b"] = .spawned ["git", "a;b"] ∧
    execCommandModel true true "git" ["status"] = .spawned ["cmd.exe", "/c", "git", "status"] := by
  decide

/-- Claim C4, amended: on the Node.js path (`isBun = false`), every call
to `execCommand`/`execCommandStreaming` validates the command name and all
arguments against the deny-list before spawning; a failed check returns
exit code 1 without spawning any process, and a successful check spawns
exactly `command :: args` with no shell (`shell: false`).  On the Bun path
no validation is performed, and on Windows the command is wrapped in
`cmd.exe /c`. -/
theorem C4_injection_safety_amended (isWindows : Bool) (command : String)
    (args : List String) :
    ((validateCommandAndArgs isWindows command args).valid = false →
      execCommandModel false isWindows command args =
        .rejected ("Error: " ++ (validateCommandAndArgs isWindows command args).error.getD "") 1 ∧
      execStreamingModel false isWindows command args =
        .rejected ("Error: " ++ (validateCommandAndArgs isWindows command args).error.getD "") 1) ∧
    ((validateCommandAndArgs isWindows command args).valid = true →
      execCommandModel false isWindows command args = .spawned (command :: args) ∧
      execStreamingModel false isWindows command args = .spawned (command :: args)) := by
  constructor
  · intro hval
    refine ⟨?_, ?_⟩ <;>
      simp [execCommandModel, execStreamingModel, hval]
  · intro hval
    have hcmd : (validateCommandAndArgs isWindows command args).command = some command := by
      simp only [validateCommandAndArgs, validateCommand] at hval ⊢
      split_ifs at hval ⊢ with h1 h2
      all_goals simp_all [validateArgs]
      all_goals (split at hval <;> simp_all)
    have hargs : (validateCommandAndArgs isWindows command args).args = some args := by
      simp only [validateCommandAndArgs, validateCommand] at hval ⊢
      split_ifs at hval ⊢ with h1 h2
      all_goals simp_all [validateArgs]
      all_goals (split at hval <;> simp_all)
    refine ⟨?_, ?_⟩ <;>
      simp [execCommandModel, execStreamingModel, hval, hcmd, hargs]

/-- Claim C4, witness of the amended theorem: a dangerous argument list is
rejected without a spawn on the Node.js path. -/
theorem C4_injection_safety_witness :
    execCommandModel false false "git" ["a;b"] =
      .rejected ("Error: " ++ (validateCommandAndArgs false "git" ["a;b"]).error.getD "") 1 ∧
    execStreamingModel false false "git" ["a;b"] =
      .rejected ("Error: " ++ (validateCommandAndArgs false "git" ["a;b"]).error.getD "") 1 :=
  (C4_injection_safety_amended false "git" ["a;b"]).1 (by decide)

end Ralphy.Exec

namespace Ralphy.Circuit

/-! ## Claim C5 — circuit-breaker state machine -/

/-- Claim C5: the full circuit-breaker lifecycle.  Two consecutive
connection-classified failures leave the circuit CLOSED and the third
opens it; while OPEN, `canAttempt` blocks (state unchanged) until more
than `resetTimeoutMs` (30 s) has passed since `lastFailureTime`, after
which it transitions to HALF_OPEN; in HALF_OPEN at most 2 trial attempts
are allowed and the next attempt re-opens the circuit with an updated
`lastFailureTime`; a success while HALF_OPEN closes the circuit and
resets `consecutiveFailures`, and a failure while HALF_OPEN re-opens it
with an updated `lastFailureTime`. -/
theorem C5_circuit_breaker_machine (t1 t2 t3 tEarly tLate : Int) (code msg : String)
    (hconn : isConnectionError code msg = true) (ht3 : t3 ≠ 0)
    (hEarly : tEarly - t3 ≤ 30000) (hLate : 30000 < tLate - t3) :
    recordFailure t2 code msg (recordFailure t1 code msg initialConnState) =
      ⟨.CLOSED, 2, some t2, 0⟩ ∧
    recordFailure t3 code msg
        (recordFailure t2 code msg (recordFailure t1 code msg initialConnState)) =
      ⟨.OPEN, 3, some t3, 0⟩ ∧
    canAttempt tEarly ⟨.OPEN, 3, some t3, 0⟩ = (false, ⟨.OPEN, 3, some t3, 0⟩) ∧
    canAttempt tLate ⟨.OPEN, 3, some t3, 0⟩ = (true, ⟨.HALF_OPEN, 3, some t3, 0⟩) ∧
    canAttempt tLate ⟨.HALF_OPEN, 3, some t3, 0⟩ = (true, ⟨.HALF_OPEN, 3, some t3, 1⟩) ∧
    canAttempt tLate ⟨.HALF_OPEN, 3, some t3, 1⟩ = (true, ⟨.HALF_OPEN, 3, some t3, 2⟩) ∧
    canAttempt tLate ⟨.HALF_OPEN, 3, some t3, 2⟩ = (false, ⟨.OPEN, 3, some tLate, 2⟩) ∧
    recordSuccess ⟨.HALF_OPEN, 3, some t3, 0⟩ = ⟨.CLOSED, 0, some t3, 0⟩ ∧
    recordFailure tLate code msg ⟨.HALF_OPEN, 3, some t3, 0⟩ = ⟨.OPEN, 4, some tLate, 0⟩ := by
  have hs1 : recordFailure t1 code msg initialConnState =
      ⟨.CLOSED, 1, some t1, 0⟩ := by
    simp [recordFailure, hconn, initialConnState, failureThreshold]
  have hs2 : recordFailure t2 code msg (recordFailure t1 code msg initialConnState) =
      ⟨.CLOSED, 2, some t2, 0⟩ := by
    rw [hs1]; simp [recordFailure, hconn, failureThreshold]
  have hs3 : recordFailure t3 code msg
      (recordFailure t2 code msg (recordFailure t1 code msg initialConnState)) =
      ⟨.OPEN, 3, some t3, 0⟩ := by
    rw [hs2]; simp [recordFailure, hconn, failureThreshold]
  refine ⟨hs2, hs3, ?_, ?_, ?_, ?_, ?_, ?_, ?_⟩
  · simp [canAttempt, resetTimeoutMs]
    intro _
    omega
  · simp [canAttempt, resetTimeoutMs, ht3]
    omega
  · simp [canAttempt, halfOpenMaxAttempts]
  · simp [canAttempt, halfOpenMaxAttempts]
  · simp [canAttempt, halfOpenMaxAttempts]
  · simp [recordSuccess]
  · simp [recordFailure, hconn]

/-- Claim C5, witness: a concrete ECONNRESET trace (code
`UNKNOWN_ERROR`, message `read ECONNRESET`) at times 1000/2000/3000,
probing at 33000 (blocked) and 40000 (HALF_OPEN). -/
theorem C5_circuit_breaker_witness :
    recordFailure 3000 "UNKNOWN_ERROR" "read ECONNRESET"
        (recordFailure 2000 "UNKNOWN_ERROR" "read ECONNRESET"
          (recordFailure 1000 "UNKNOWN_ERROR" "read ECONNRESET" initialConnState)) =
      ⟨.OPEN, 3, some 3000, 0⟩ ∧
    canAttempt 33000 ⟨.OPEN, 3, some 3000, 0⟩ = (false, ⟨.OPEN, 3, some 3000, 0⟩) ∧
    canAttempt 40000 ⟨.OPEN, 3, some 3000, 0⟩ = (true, ⟨.HALF_OPEN, 3, some 3000, 0⟩) := by
  have h := C5_circuit_breaker_machine 1000 2000 3000 33000 40000
    "UNKNOWN_ERROR" "read ECONNRESET" (by decide) (by decide) (by decide) (by decide)
  exact ⟨h.2.1, h.2.2.1, h.2.2.2.1⟩

end Ralphy.Circuit

namespace Ralphy.Hash

/-! ## Claim C1 — hash-store round trip -/

/-- Claim C1: the round trip fails on every freshly stored file, and the
index invariant is broken.  `addFile` records `hashPath` WITHOUT the
`content/` directory prefix in the fresh-store branch (while the
deduplication branch and the written file both use `content/...`), so the
very next `getFile` resolves the wrong path and fails with
"Content not found", and the recorded `hashPath` names no file on disk.
Re-adding identical (compressed) content flips `alreadyExists` and
records the correct `content/`-prefixed path, after which `getFile`
succeeds — pinning the fresh-branch prefix omission as the defect. -/
theorem C1_hash_store_roundtrip_bug :
    (addFile toyHash id 100 "t" "a.txt" [104, 105] 50 emptyStore).1.success = true ∧
    alGet "a.txt" (addFile toyHash id 100 "t" "a.txt" [104, 105] 50 emptyStore).2.files =
      some ⟨"h104-105", "h104-105", "content/h104-105.json"⟩ ∧
    alGet "content/h104-105"
      (addFile toyHash id 100 "t" "a.txt" [104, 105] 50 emptyStore).2.fsFiles =
      some [104, 105] ∧
    alGet "h104-105"
      (addFile toyHash id 100 "t" "a.txt" [104, 105] 50 emptyStore).2.fsFiles = none ∧
    (getFile id "a.txt" (addFile toyHash id 100 "t" "a.txt" [104, 105] 50 emptyStore).2).success
      = false ∧
    (getFile id "a.txt" (addFile toyHash id 100 "t" "a.txt" [104, 105] 50 emptyStore).2).error
      = some "Content not found for: a.txt" ∧
    (getFile id "b.txt"
      (addFile toyHash id 100 "t" "b.txt" [104, 105] 50 emptyStore true 2).2).success = false ∧
    (getFile id "b.txt"
      (addFile toyHash id 200 "t" "b.txt" [104, 105] 50
        (addFile toyHash id 100 "t" "b.txt" [104, 105] 50 emptyStore true 2).2 true 2).2).success
      = true ∧
    (getFile id "b.txt"
      (addFile toyHash id 200 "t" "b.txt" [104, 105] 50
        (addFile toyHash id 100 "t" "b.txt" [104, 105] 50 emptyStore true 2).2 true 2).2).content
      = some [104, 105] := by
  decide

end Ralphy.Hash

namespace Ralphy.Locks

/-! ## Claims C8 and C10 — lock manager -/

theorem selfHeldB_iff (self : String) (s : LockState) (q : String) :
    selfHeldB self s q = true ↔ ∃ x ∈ s.mem, x.1 = q ∧ x.2.owner = self := by
  simp [selfHeldB, List.any_eq_true]

theorem mem_insertByTsDesc {x y : String × LockInfo} {l : List (String × LockInfo)}
    (h : x ∈ insertByTsDesc y l) : x = y ∨ x ∈ l := by
  induction l with
  | nil => simpa [insertByTsDesc] using h
  | cons hd tl ih =>
    simp only [insertByTsDesc] at h
    split_ifs at h with hc
    · rcases List.mem_cons.mp h with h1 | h1
      · right; rw [h1]; exact List.mem_cons_self hd tl
      · rcases ih h1 with h2 | h2
        · left; exact h2
        · right; exact List.mem_cons_of_mem _ h2
    · rcases List.mem_cons.mp h with h1 | h1
      · left; exact h1
      · right; exact h1

theorem mem_sortByTsDesc {x : String × LockInfo} {l : List (String × LockInfo)}
    (h : x ∈ sortByTsDesc l) : x ∈ l := by
  induction l with
  | nil =>
    simp only [sortByTsDesc] at h
    exact absurd h (List.not_mem_nil x)
  | cons hd tl ih =>
    simp only [sortByTsDesc] at h
    rcases mem_insertByTsDesc h with h1 | h1
    · rw [h1]; exact List.mem_cons_self hd tl
    · exact List.mem_cons_of_mem _ (ih h1)

theorem mem_cleanupStaleLocks {self : String} {now : Int} {x : String × LockInfo}
    {mem : List (String × LockInfo)} (h : x ∈ cleanupStaleLocks self now mem) : x ∈ mem := by
  simp only [cleanupStaleLocks] at h
  split_ifs at h with hc
  · exact (List.mem_filter.mp (mem_sortByTsDesc (List.mem_filter.mp h).1)).1
  · exact (List.mem_filter.mp h).1

theorem selfHeld_maybeCleanup {self : String} {now : Int} {s : LockState} {q : String}
    (h : selfHeldB self (maybeCleanup self now s) q = true) : selfHeldB self s q = true := by
  simp only [maybeCleanup] at h
  split_ifs at h with hc
  · rw [selfHeldB_iff] at h ⊢
    obtain ⟨x, hx, hp⟩ := h
    exact ⟨x, mem_cleanupStaleLocks hx, hp⟩
  · exact h

theorem selfHeld_alSet {self : String} {m : List (String × LockInfo)} {k q : String}
    {v : LockInfo}
    (h : (alSet k v m).any (fun x => x.1 = q ∧ x.2.owner = self) = true) :
    m.any (fun x => x.1 = q ∧ x.2.owner = self) = true ∨ q = k := by
  simp only [List.any_eq_true] at h ⊢
  obtain ⟨x, hx, hp⟩ := h
  rcases mem_alSet hx with h1 | h1
  · left; exact ⟨x, h1, hp⟩
  · right
    simp only [decide_eq_true_eq] at hp
    rw [← hp.1, h1]

/-- Every result state of one acquisition attempt has either the cleaned
memory table unchanged, or the cleaned table with the single key `pth`
inserted (and then the attempt returned success). -/
theorem acqOnce_cases (self : String) (now : Int) (pth : String) (r : Bool) (s : LockState) :
    (∃ s₁, acqOnce self now pth r s = .done false s₁ ∧
      s₁.mem = (maybeCleanup self now s).mem) ∨
    (∃ s₁ info, acqOnce self now pth r s = .done true s₁ ∧
      s₁.mem = alSet pth info (maybeCleanup self now s).mem) ∨
    (∃ s₁, acqOnce self now pth r s = .retry s₁ ∧
      s₁.mem = (maybeCleanup self now s).mem) := by
  simp only [acqOnce]
  split <;> (try split_ifs) <;> (try split) <;> (try split_ifs) <;>
    first
      | exact Or.inl ⟨_, rfl, rfl⟩
      | exact Or.inr (Or.inl ⟨_, _, rfl, rfl⟩)
      | exact Or.inr (Or.inr ⟨_, rfl, rfl⟩)

theorem acqOnce_done_subset {self : String} {now : Int} {pth : String} {r : Bool}
    {s : LockState} {ok : Bool} {s' : LockState} {q : String}
    (h : acqOnce self now pth r s = .done ok s')
    (hq : selfHeldB self s' q = true) :
    selfHeldB self s q = true ∨ (ok = true ∧ q = pth) := by
  rcases acqOnce_cases self now pth r s with ⟨s₁, he, hm⟩ | ⟨s₁, info, he, hm⟩ | ⟨s₁, he, hm⟩
  · rw [he] at h
    cases h
    left
    apply selfHeld_maybeCleanup
    show selfHeldB self (maybeCleanup self now s) q = true
    simpa [selfHeldB, hm] using hq
  · rw [he] at h
    cases h
    have hq' : (alSet pth info (maybeCleanup self now s).mem).any
        (fun x => x.1 = q ∧ x.2.owner = self) = true := by
      simpa [selfHeldB, hm] using hq
    rcases selfHeld_alSet hq' with h1 | h1
    · exact Or.inl (selfHeld_maybeCleanup h1)
    · exact Or.inr ⟨rfl, h1⟩
  · rw [he] at h
    cases h

theorem acqOnce_retry_subset {self : String} {now : Int} {pth : String} {r : Bool}
    {s : LockState} {s' : LockState} {q : String}
    (h : acqOnce self now pth r s = .retry s')
    (hq : selfHeldB self s' q = true) :
    selfHeldB self s q = true := by
  rcases acqOnce_cases self now pth r s with ⟨s₁, he, hm⟩ | ⟨s₁, info, he, hm⟩ | ⟨s₁, he, hm⟩
  · rw [he] at h; cases h
  · rw [he] at h; cases h
  · rw [he] at h
    cases h
    apply selfHeld_maybeCleanup
    show selfHeldB self (maybeCleanup self now s) q = true
    simpa [selfHeldB, hm] using hq

theorem acqAttempts_self_subset {self : String} {now : Int} {pth : String} {r : Bool} :
    ∀ (n : Nat) (s : LockState) (ok : Bool) (s' : LockState),
      acqAttempts self now pth r n s = (ok, s') →
      ∀ q, selfHeldB self s' q = true →
        selfHeldB self s q = true ∨ (ok = true ∧ q = pth) := by
  intro n
  induction n with
  | zero =>
    intro s ok s' h q hq
    simp only [acqAttempts] at h
    cases h
    exact Or.inl hq
  | succ n ih =>
    intro s ok s' h q hq
    simp only [acqAttempts] at h
    cases hOnce : acqOnce self now pth r s with
    | done ok1 s1 =>
      rw [hOnce] at h
      cases h
      exact acqOnce_done_subset hOnce hq
    | retry s1 =>
      rw [hOnce] at h
      rcases ih s1 ok s' h q hq with h1 | h1
      · exact Or.inl (acqOnce_retry_subset hOnce h1)
      · exact Or.inr h1

theorem selfHeld_release {self : String} {norm : String → String} {f : String}
    {s : LockState} {q : String}
    (h : selfHeldB self (releaseFileLock norm f s) q = true) :
    q ≠ norm f ∧ selfHeldB self s q = true := by
  simp only [releaseFileLock, selfHeldB, List.any_eq_true, decide_eq_true_eq] at h ⊢
  obtain ⟨x, hx, hp⟩ := h
  obtain ⟨hxm, hxk⟩ := mem_alDel hx
  exact ⟨by rw [← hp.1]; exact hxk, ⟨x, hxm, hp⟩⟩

theorem selfHeld_rollback {self : String} {norm : String → String} :
    ∀ (acq : List String) (s : LockState) (q : String),
      selfHeldB self (rollbackLocks norm acq s) q = true →
      selfHeldB self s q = true ∧ ∀ f ∈ acq, q ≠ norm f := by
  intro acq
  induction acq with
  | nil =>
    intro s q h
    exact ⟨h, by simp⟩
  | cons f fs ih =>
    intro s q h
    have hfold : rollbackLocks norm (f :: fs) s = rollbackLocks norm fs (releaseFileLock norm f s) :=
      rfl
    rw [hfold] at h
    obtain ⟨h1, h2⟩ := ih (releaseFileLock norm f s) q h
    obtain ⟨hne, h3⟩ := selfHeld_release h1
    refine ⟨h3, ?_⟩
    intro g hg
    rcases List.mem_cons.mp hg with hq1 | hq1
    · rw [hq1]; exact hne
    · exact h2 g hq1

theorem acqMany_false_subset {self : String} {now : Int} {norm : String → String} :
    ∀ (fs acq : List String) (s s' : LockState),
      acqMany self now norm acq fs s = (false, s') →
      ∀ q, selfHeldB self s' q = true →
        selfHeldB self s q = true ∧ ∀ f ∈ acq, q ≠ norm f := by
  intro fs
  induction fs with
  | nil =>
    intro acq s s' h q hq
    simp only [acqMany, Prod.mk.injEq] at h
    exact absurd h.1 (by simp)
  | cons f fs ih =>
    intro acq s s' h q hq
    simp only [acqMany] at h
    rcases hacq : acquireFileLock self now norm f s with ⟨ok1, s1⟩
    rw [hacq] at h
    cases ok1 with
      | true =>
        obtain ⟨h1, h2⟩ := ih (acq ++ [f]) s1 s' h q hq
        have hnef : q ≠ norm f := h2 f (by simp)
        rcases acqAttempts_self_subset 5 s true s1 hacq q h1 with h3 | h3
        · refine ⟨h3, ?_⟩
          intro g hg
          exact h2 g (List.mem_append_left _ hg)
        · exact absurd h3.2 hnef
      | false =>
        cases h
        obtain ⟨h1, h2⟩ := selfHeld_rollback acq s1 q hq
        rcases acqAttempts_self_subset 5 s false s1 hacq q h1 with h3 | h3
        · exact ⟨h3, h2⟩
        · cases h3.1
  
/-- Claim C8, amended: when `acquireLocksForFiles` returns `false`, every
lock acquired during this call has been released — the caller holds no
in-memory lock afterwards that it did not already hold before the call.
Locks in the input set that the caller already held before the call may
remain held (re-entrancy is off, so such a pre-held lock is itself what
makes the call fail). -/
theorem C8_acquireMany_rollback_amended (self : String) (now : Int) (norm : String → String)
    (files : List String) (s s' : LockState)
    (h : acquireLocksForFiles self now norm files s = (false, s')) :
    ∀ q, selfHeldB self s' q = true → selfHeldB self s q = true := by
  intro q hq
  exact (acqMany_false_subset (dedupByNorm norm [] files) [] s s' h q hq).1

/-- Claim C8, counterexample to the claim as stated: the caller already
holds a live lock on `"a"`; `acquireLocksForFiles ["a"]` fails (no
re-entrancy), rolls back nothing, and the lock on `"a"` — a member of the
input set — is still held by the caller. -/
theorem C8_acquireMany_counterexample :
    acquireLocksForFiles "self" 1000 (fun x => x) ["a"] preHeldState = (false, preHeldState) ∧
    selfHeldB "self" preHeldState "a" = true := by
  decide

/-- Claim C8, witness of the amended theorem at the concrete failing call. -/
theorem C8_acquireMany_rollback_witness :
    selfHeldB "self" preHeldState "a" = true :=
  C8_acquireMany_rollback_amended "self" 1000 (fun x => x) ["a"] preHeldState preHeldState
    (by decide) "a" (by decide)

/-- Claim C10: `releaseFileLock` removes the in-memory entry and the
on-disk lock file for the normalized path unconditionally — it takes no
owner and performs no ownership or liveness check (the statement holds for
EVERY state, including one whose lock is live and owned by a different
process) — and it touches nothing else. -/
theorem C10_release_ignores_ownership (norm : String → String) (filePath : String)
    (s : LockState) :
    alGet (norm filePath) (releaseFileLock norm filePath s).mem = none ∧
    alGet (norm filePath) (releaseFileLock norm filePath s).disk = none ∧
    (∀ q, q ≠ norm filePath →
      alGet q (releaseFileLock norm filePath s).mem = alGet q s.mem ∧
      alGet q (releaseFileLock norm filePath s).disk = alGet q s.disk) ∧
    (releaseFileLock norm filePath s).lastCleanup = s.lastCleanup := by
  refine ⟨?_, ?_, ?_, rfl⟩
  · simp only [releaseFileLock]
    rw [alGet_del, if_pos rfl]
  · simp only [releaseFileLock]
    rw [alGet_del, if_pos rfl]
  · intro q hne
    constructor <;> (simp only [releaseFileLock]; rw [alGet_del, if_neg (Ne.symm hne)])

/-- Claim C10, witness: a live lock owned by the DIFFERENT process
`"other"` is removed by `releaseFileLock`, while an unrelated key is left
alone. -/
theorem C10_release_ignores_ownership_witness :
    alGet "a" (releaseFileLock (fun x => x) "a" otherOwnedState).mem = none ∧
    alGet "a" (releaseFileLock (fun x => x) "a" otherOwnedState).disk = none ∧
    alGet "b" (releaseFileLock (fun x => x) "a" otherOwnedState).mem =
      alGet "b" otherOwnedState.mem := by
  have h := C10_release_ignores_ownership (fun x => x) "a" otherOwnedState
  exact ⟨h.1, h.2.1, (h.2.2.1 "b" (by decide)).1⟩

end Ralphy.Locks
